import Mathlib

/-!
Verification of the `martel_print_mech_analyser` core: a shallow embedding of
the print-mechanism emulator (`printout_generation.py`), the sample decoder of
the Digilent Digital Discovery signal analyser
(`signal_analyser/digilent_digital_discovery.py`), the CSV export/import pair
and the capture orchestrator (`ltpd245.py`), together with proofs and
refutations of the specification's claims about them.

Machine reals (numpy float32/float64) are modelled as `ℚ`; the 8-bit hardware
counter is modelled as `Nat` with explicit `% 256` behaviour where the source
relies on wrapping; signal bits are `Nat` values used with the source's
truthiness tests (`≠ 0`).
-/

namespace MartelMech

/-- DOTS_PER_LINE constant from `printout_generation.py`: width of the thermal
head in dots. -/
def DOTS_PER_LINE : Nat := 384

/-- One decoded sample record, mirroring the `SampleRecord` numpy dtype in
`signal_analyser.py`: fields `timestamp, clock, data, dst, latch, motor1,
motor2` in that order.  Bits are stored as numbers (uint8 in the source). -/
structure SampleRecord where
  timestamp : ℚ
  clock : Nat
  data : Nat
  dst : Nat
  latch : Nat
  motor1 : Nat
  motor2 : Nat
deriving Repr, DecidableEq

/-- State of `PrintMechEmulator` from `printout_generation.py`.  The paper
buffer is a list of rows, each row a list of accumulated burn times. -/
@[ext] structure PrintMechEmulator where
  shift_register : List Nat
  latch_register : List Nat
  paper_buffer : List (List ℚ)
  burn_time : ℚ
  motor_steps : Nat
  last_timestamp : ℚ
  last_clock : Nat
  last_dst : Nat
  last_latch : Nat
  last_motor_state : Nat
deriving Repr, DecidableEq

namespace PrintMechEmulator

/-- Constructor `PrintMechEmulator.__init__`: zeroed registers, a two-row
zero paper buffer, and the previous-value fields snapshotted from the first
record.  The source computes `last_motor_state` as `motor1 + motor2`. -/
def init (initial_state : SampleRecord) : PrintMechEmulator where
  shift_register := List.replicate DOTS_PER_LINE 0
  latch_register := List.replicate DOTS_PER_LINE 0
  paper_buffer := [List.replicate DOTS_PER_LINE 0, List.replicate DOTS_PER_LINE 0]
  burn_time := 0
  motor_steps := 0
  last_timestamp := initial_state.timestamp
  last_clock := initial_state.clock
  last_dst := initial_state.dst
  last_latch := initial_state.latch
  last_motor_state := initial_state.motor1 + initial_state.motor2

/-- Elementwise `row += burn_buffer` on the row at index `i` of the paper
buffer (numpy `self._paper_buffer[i] += burn_buffer`; rows always have the
same length in reachable states, so `zipWith` truncation never fires). -/
def addToRow (paper : List (List ℚ)) (i : Nat) (bb : List ℚ) : List (List ℚ) :=
  paper.set i (List.zipWith (· + ·) (paper.getD i []) bb)

/-- Method `_burn_latch_register`: add `latch_register * burn_time` to the
active row `paper_buffer[-2]`, to the pending row `paper_buffer[-1]` as well
when `between_lines`, then reset `burn_time` to 0. -/
def burnLatchRegister (s : PrintMechEmulator) (between_lines : Bool) :
    PrintMechEmulator :=
  let burn_buffer := s.latch_register.map (fun b : Nat => (b : ℚ) * s.burn_time)
  let paper := addToRow s.paper_buffer (s.paper_buffer.length - 2) burn_buffer
  let paper := if between_lines then
      addToRow paper (paper.length - 1) burn_buffer
    else paper
  { s with paper_buffer := paper, burn_time := 0 }

/-- Method `_advance_line`: append a fresh zero row at the bottom of the
paper buffer. -/
def advanceLine (s : PrintMechEmulator) : PrintMechEmulator :=
  { s with paper_buffer := s.paper_buffer ++ [List.replicate DOTS_PER_LINE 0] }

/-- Method `update`, translated check for check in source order:
burn accumulation on previous DST, latch falling edge (drain burn, then copy
shift to latch by value), clock rising edge (shift the data bit in), motor
state change (2 steps per change, between-lines burn at 2 steps, row advance
at 4 or more), and finally the commit of current values as previous ones. -/
def update (s : PrintMechEmulator) (input : SampleRecord) : PrintMechEmulator :=
  let s := if s.last_dst ≠ 0 then
      { s with burn_time := s.burn_time + (input.timestamp - s.last_timestamp) }
    else s
  let s := if s.last_latch ≠ 0 ∧ input.latch = 0 then
      let s2 := s.burnLatchRegister false
      { s2 with latch_register := s2.shift_register }
    else s
  let s := if input.clock ≠ 0 ∧ s.last_clock = 0 then
      { s with shift_register := s.shift_register.tail ++ [input.data] }
    else s
  let motor_state := input.motor1 + input.motor2
  let s := if motor_state ≠ s.last_motor_state then
      if s.motor_steps + 2 = 2 then
        { s.burnLatchRegister true with motor_steps := s.motor_steps + 2 }
      else if 4 ≤ s.motor_steps + 2 then
        { (s.burnLatchRegister false).advanceLine with motor_steps := 0 }
      else
        { s with motor_steps := s.motor_steps + 2 }
    else s
  { s with
    last_timestamp := input.timestamp
    last_clock := input.clock
    last_dst := input.dst
    last_latch := input.latch
    last_motor_state := motor_state }

/-- Step 1 of the spec's update ordering: if the previous DST bit was high,
accumulate the elapsed interval into the burn accumulator. -/
def dstStep (s : PrintMechEmulator) (input : SampleRecord) : PrintMechEmulator :=
  if s.last_dst ≠ 0 then
    { s with burn_time := s.burn_time + (input.timestamp - s.last_timestamp) }
  else s

/-- Step 2: on a latch falling edge, drain the accumulated burn into the
active row (using the old latch register), then copy shift to latch by
value. -/
def latchStep (s : PrintMechEmulator) (input : SampleRecord) : PrintMechEmulator :=
  if s.last_latch ≠ 0 ∧ input.latch = 0 then
    let s2 := s.burnLatchRegister false
    { s2 with latch_register := s2.shift_register }
  else s

/-- Step 3: on a clock rising edge, shift the data bit into the shift
register at the top index. -/
def clockStep (s : PrintMechEmulator) (input : SampleRecord) : PrintMechEmulator :=
  if input.clock ≠ 0 ∧ s.last_clock = 0 then
    { s with shift_register := s.shift_register.tail ++ [input.data] }
  else s

/-- Step 4: on a motor state change, advance by two steps and apply the
between-lines burn or the row advance. -/
def motorStep (s : PrintMechEmulator) (input : SampleRecord) : PrintMechEmulator :=
  if input.motor1 + input.motor2 ≠ s.last_motor_state then
    if s.motor_steps + 2 = 2 then
      { s.burnLatchRegister true with motor_steps := s.motor_steps + 2 }
    else if 4 ≤ s.motor_steps + 2 then
      { (s.burnLatchRegister false).advanceLine with motor_steps := 0 }
    else
      { s with motor_steps := s.motor_steps + 2 }
  else s

/-- Step 5: commit the current values as the previous ones. -/
def commitStep (s : PrintMechEmulator) (input : SampleRecord) : PrintMechEmulator :=
  { s with
    last_timestamp := input.timestamp
    last_clock := input.clock
    last_dst := input.dst
    last_latch := input.latch
    last_motor_state := input.motor1 + input.motor2 }

/-- Pixel mapping of `get_printout`: the buffer is scaled by 25000, ceiled,
subtracted from 255 and clamped below at 0 (`np.maximum(255 - buf, 0)`). -/
def pixelOf (t : ℚ) : ℤ := max (255 - ⌈t * 25000⌉) 0

/-- Method `get_printout`: drain residual burn into the active row via
`_burn_latch_register`, then rasterise the paper buffer into a grayscale
image.  The scaling happens on the stacked copy, so the returned emulator
state carries only the drain; the pair returns (image, post-call state). -/
def get_printout (s : PrintMechEmulator) :
    List (List ℤ) × PrintMechEmulator :=
  let s2 := s.burnLatchRegister false
  (s2.paper_buffer.map fun row => row.map pixelOf, s2)

/-- Run a list of records through `update` in order. -/
def run (s : PrintMechEmulator) (rs : List SampleRecord) : PrintMechEmulator :=
  rs.foldl update s

end PrintMechEmulator

/-! DigilentDDiscovery sample decoder (`_get_samples`). -/

/-- Generated counter frequency `_COUNT_FREQ` (Hz). -/
def countFreq : Nat := 10000

/-- Decoder state threaded across batches: `_global_counter` and
`_last_count`, both initialised to 0 in `__init__`. -/
structure DecoderState where
  global_counter : Nat
  last_count : Nat
deriving Repr, DecidableEq

/-- Per-batch counter adjustment of `_get_samples`: the source splits the raw
counter column at every position where it decreases (`np.split` at
`np.flatnonzero(np.diff(counter) < 0) + 1`) and adds the global counter to
each partition, incrementing the global counter by 256 after every partition
except the last.  Because the split points are exactly the adjacent
decreases, this equals the cumulative form below: each element gets the
running global counter, which steps by 256 whenever the raw value drops. -/
def adjustCounter (g : Nat) : List Nat → List Nat
  | [] => []
  | [c] => [g + c]
  | c1 :: c2 :: rest =>
      (g + c1) :: adjustCounter (if c2 < c1 then g + 256 else g) (c2 :: rest)

/-- Number of adjacent decreases in a list; the number of partitions produced
by the source's `np.split` is this plus one. -/
def countDecreases : List Nat → Nat
  | c1 :: c2 :: rest => (if c2 < c1 then 1 else 0) + countDecreases (c2 :: rest)
  | _ => 0

/-- Counter-reconstruction portion of `_get_samples` on one batch: if the
batch's first raw value is below `_last_count` the counter wrapped between
batches and the global counter advances by 256; `_last_count` is then stored
from the raw (unadjusted) last value; the in-batch partitions are shifted into
the global domain, advancing the global counter by 256 per partition except
the last.  Returns the adjusted counter column and the new decoder state.
An empty batch returns early (`sample_count == 0`). -/
def getSamplesCounter (st : DecoderState) (counter : List Nat) :
    List Nat × DecoderState :=
  match counter with
  | [] => ([], st)
  | c :: rest =>
      let g1 := if c < st.last_count then st.global_counter + 256
        else st.global_counter
      (adjustCounter g1 (c :: rest),
       ⟨g1 + 256 * countDecreases (c :: rest), (c :: rest).getLastD 0⟩)

/-- Timestamp column of one decoded batch: `counter * (1 / _COUNT_FREQ)`
applied to the globally adjusted counter values. -/
def decodeTimestamps (st : DecoderState) (counter : List Nat) : List ℚ :=
  (getSamplesCounter st counter).1.map (fun k : Nat => (k : ℚ) / countFreq)

/-- Redundancy filter of `_get_samples`: with `non_repeated` the elementwise
comparison `samples[:-1] != samples[1:]`, the batch is dropped (the function
returns None) exactly when no entry of `non_repeated[:-1]` is set and the
batch's first sample equals the last stored sample (`None`, hence unequal,
when nothing has been stored yet).  `samples` holds the packed signal bytes. -/
def droppedByFilter (last_sample : Option Nat) (samples : List Nat) : Bool :=
  let non_repeated := List.zipWith (fun a b => decide (a ≠ b))
    samples.dropLast samples.tail
  (!non_repeated.dropLast.any id) &&
    (match last_sample, samples.head? with
     | some l, some c => decide (c = l)
     | _, _ => false)

/-! CSV export (`DigilentDDiscovery.export_data`) and import
(`read_mech_input` in `printout_generation.py`). -/

/-- One data row of the exported CSV.  `export_data` writes the header
`Timestamp,Clock,Data,DST,Latch,Motor1,Motor2` and then, per record, the
fields `timestamp, clock, data, dst, latch, motor1, motor2` in that order, so
column 3 is headed `DST` and column 4 is headed `Latch`. -/
structure CsvRow where
  col0 : ℚ
  col1 : Nat
  col2 : Nat
  col3 : Nat
  col4 : Nat
  col5 : Nat
  col6 : Nat
deriving Repr, DecidableEq

/-- Row written by `export_data` for one record. -/
def exportRow (r : SampleRecord) : CsvRow :=
  ⟨r.timestamp, r.clock, r.data, r.dst, r.latch, r.motor1, r.motor2⟩

/-- The `MechInput` dataclass of `printout_generation.py`. -/
structure MechInput where
  timestamp : ℚ
  spi_clock : Nat
  spi_data : Nat
  latch : Nat
  dst : Nat
  motor_state : Nat
deriving Repr, DecidableEq

/-- Row parsing of `read_mech_input`: `timestamp = state[0]`,
`spi_clock = state[1]`, `spi_data = state[2]`, `latch = state[3]`,
`dst = state[4]`, `motor_state = (state[6] << 1) + state[5]`. -/
def readMechInputRow (row : CsvRow) : MechInput :=
  ⟨row.col0, row.col1, row.col2, row.col3, row.col4,
   (row.col6 <<< 1) + row.col5⟩

/-- The parse that the CSV header documents: the column headed `DST` is the
dst bit and the column headed `Latch` is the latch bit.  Modelled from the
spec: the spec's CSV contract places each record's dst bit in the `DST`
column and its latch bit in the `Latch` column. -/
def readRowPerHeader (row : CsvRow) : MechInput :=
  ⟨row.col0, row.col1, row.col2, row.col4, row.col3,
   (row.col6 <<< 1) + row.col5⟩

/-! Capture orchestrator feed (`LTPD245Analyser.await_capture_completion`,
lines 47-55): after a capture completes, `get_data()` returns the
concatenation of every batch stored so far and all of it is fed to the
emulator, creating it from the first record when none exists yet. -/

/-- One invocation of the record-feeding tail of `await_capture_completion`
applied to the full record array returned by `get_data()`. -/
def awaitFeed (emu : Option PrintMechEmulator) (records : List SampleRecord) :
    Option PrintMechEmulator :=
  match emu, records with
  | none, [] => none
  | none, r :: rest => some (PrintMechEmulator.run (.init r) rest)
  | some e, rs => some (PrintMechEmulator.run e rs)

/-! Ghost accounting for burn conservation (claim C10). -/

/-- Latch-register bit of column `j` as a rational weight. -/
def latchBit (j : Nat) (s : PrintMechEmulator) : ℚ :=
  ((s.latch_register.getD j 0 : Nat) : ℚ)

/-- Total burn time stored in a paper buffer for dot column `j`. -/
def colSum (j : Nat) (p : List (List ℚ)) : ℚ :=
  (p.map fun row => row.getD j 0).sum

/-- Total burn time stored in the paper buffer for dot column `j`. -/
def columnTotal (j : Nat) (s : PrintMechEmulator) : ℚ :=
  colSum j s.paper_buffer

/-- Time integral of the dst signal over a record trace: the sum of the
interval lengths whose opening record had dst high, exactly the intervals in
which `update` lets `burn_time` grow. -/
def dstIntegral : SampleRecord → List SampleRecord → ℚ
  | _, [] => 0
  | prev, r :: rs =>
      (if prev.dst ≠ 0 then r.timestamp - prev.timestamp else 0) +
        dstIntegral r rs

/-- Latch-weighted, between-rows-doubled dst integral: the running total the
paper buffer actually receives.  Interval contributions are weighted by the
latch bit in force while they accumulate, and the portion drained by a
between-rows burn is counted a second time (pending-row copy).  The second
term reads the state after the spec's steps 1 and 2, which is where the
between-rows burn takes its latch register and accumulator from. -/
def colGhost (j : Nat) : PrintMechEmulator → List SampleRecord → ℚ
  | _, [] => 0
  | s, r :: rs =>
      let c1 := if s.last_dst ≠ 0 then
          latchBit j s * (r.timestamp - s.last_timestamp) else 0
      let s2 := PrintMechEmulator.latchStep (PrintMechEmulator.dstStep s r) r
      let c2 := if r.motor1 + r.motor2 ≠ s.last_motor_state ∧ s.motor_steps + 2 = 2
        then latchBit j s2 * s2.burn_time else 0
      c1 + c2 + colGhost j (s.update r) rs

/-! Stepper-phase counters for the row-advance cadence (claim C1). -/

/-- Motor state as the emulator computes it: `motor1 + motor2`. -/
def sumPhase (r : SampleRecord) : Nat := r.motor1 + r.motor2

/-- Stepper phase as the spec defines it: `motor1 | (motor2 << 1)`; on the
single-bit values this is `motor1 + 2 * motor2`. -/
def packedPhase (r : SampleRecord) : Nat := r.motor1 + 2 * r.motor2

/-- Number of motor-state changes the emulator observes along a trace,
starting from a previous motor state `m`. -/
def motorChangesN (m : Nat) : List SampleRecord → Nat
  | [] => 0
  | r :: rs => (if sumPhase r ≠ m then 1 else 0) + motorChangesN (sumPhase r) rs

/-- Number of phase changes along a trace under the spec's packed phase,
starting from a previous phase `m`. -/
def packedChangesN (m : Nat) : List SampleRecord → Nat
  | [] => 0
  | r :: rs => (if packedPhase r ≠ m then 1 else 0) + packedChangesN (packedPhase r) rs

/-! List helper lemmas. -/

lemma list_set_getD_self {α : Type} (l : List α) (i : Nat) (d : α)
    (h : i < l.length) : l.set i (l.getD i d) = l := by
  induction l generalizing i with
  | nil => simp at h
  | cons a t ih =>
    cases i with
    | zero => simp
    | succ n =>
      simp only [List.getD_cons_succ, List.set_cons_succ]
      rw [ih]
      simpa using h

lemma list_getD_set_ne {α : Type} (l : List α) (i j : Nat) (x d : α)
    (h : i ≠ j) : (l.set i x).getD j d = l.getD j d := by
  simp [List.getD_eq_getElem?_getD, List.getElem?_set_ne h]

lemma list_getD_set_self {α : Type} (l : List α) (i : Nat) (x d : α)
    (h : i < l.length) : (l.set i x).getD i d = x := by
  simp [List.getD_eq_getElem?_getD, List.getElem?_set_self, h]

/-- Adding an all-zero burn buffer leaves a row unchanged, provided the row is
no longer than the buffer. -/
lemma zipWith_add_mul_zero (row : List ℚ) (latch : List Nat)
    (h : row.length ≤ latch.length) :
    List.zipWith (· + ·) row (latch.map (fun b : Nat => (b : ℚ) * 0)) = row := by
  induction row generalizing latch with
  | nil => simp
  | cons x t ih =>
    cases latch with
    | nil => simp at h
    | cons b bt =>
      simp only [List.map_cons, List.zipWith_cons_cons]
      rw [ih bt (by simpa using h)]
      simp

/-- Elementwise reading of a burn buffer: the default cases line up because
the map sends the default 0 to 0. -/
lemma getD_map_mul (latch : List Nat) (t : ℚ) (j : Nat) :
    ((latch.map (fun b : Nat => (b : ℚ) * t)).getD j 0) = ((latch.getD j 0 : Nat) : ℚ) * t := by
  induction latch generalizing j with
  | nil => simp
  | cons b bt ih =>
    cases j with
    | zero => simp
    | succ n => simpa using ih n

/-- Elementwise reading of a row sum, when the two lists have equal length
(the default cases line up because `0 + 0 = 0`). -/
lemma getD_zipWith_add (row bb : List ℚ) (j : Nat)
    (h : row.length = bb.length) :
    (List.zipWith (· + ·) row bb).getD j 0 = row.getD j 0 + bb.getD j 0 := by
  induction row generalizing bb j with
  | nil =>
    cases bb with
    | nil => simp
    | cons y yt => simp at h
  | cons x t ih =>
    cases bb with
    | nil => simp at h
    | cons y yt =>
      cases j with
      | zero => simp
      | succ n => simpa using ih yt n (by simpa using h)

lemma sum_map_getD_set (p : List (List ℚ)) (i : Nat) (x : List ℚ) (j : Nat)
    (h : i < p.length) :
    ((p.set i x).map fun row => row.getD j 0).sum
      = (p.map fun row => row.getD j 0).sum
        - (p.getD i []).getD j 0 + x.getD j 0 := by
  induction p generalizing i with
  | nil => simp at h
  | cons r t ih =>
    cases i with
    | zero => simp; ring
    | succ n =>
      simp only [List.set_cons_succ, List.map_cons, List.sum_cons,
        List.getD_cons_succ]
      rw [ih n (by simpa using h)]
      ring

namespace PrintMechEmulator

/-- The source's update body is literally the spec's five steps composed in
order; shared form used by the later invariant proofs. -/
lemma update_stages (s : PrintMechEmulator) (i : SampleRecord) :
    s.update i = commitStep (motorStep (clockStep (latchStep (dstStep s i) i) i) i) i := rfl

@[simp] lemma burnLatch_shift (s : PrintMechEmulator) (b : Bool) :
    (s.burnLatchRegister b).shift_register = s.shift_register := by cases b <;> rfl

@[simp] lemma burnLatch_latch (s : PrintMechEmulator) (b : Bool) :
    (s.burnLatchRegister b).latch_register = s.latch_register := by cases b <;> rfl

@[simp] lemma burnLatch_burn (s : PrintMechEmulator) (b : Bool) :
    (s.burnLatchRegister b).burn_time = 0 := by cases b <;> rfl

@[simp] lemma burnLatch_motor (s : PrintMechEmulator) (b : Bool) :
    (s.burnLatchRegister b).motor_steps = s.motor_steps := by cases b <;> rfl

@[simp] lemma burnLatch_last_timestamp (s : PrintMechEmulator) (b : Bool) :
    (s.burnLatchRegister b).last_timestamp = s.last_timestamp := by cases b <;> rfl

@[simp] lemma burnLatch_last_clock (s : PrintMechEmulator) (b : Bool) :
    (s.burnLatchRegister b).last_clock = s.last_clock := by cases b <;> rfl

@[simp] lemma burnLatch_last_dst (s : PrintMechEmulator) (b : Bool) :
    (s.burnLatchRegister b).last_dst = s.last_dst := by cases b <;> rfl

@[simp] lemma burnLatch_last_latch (s : PrintMechEmulator) (b : Bool) :
    (s.burnLatchRegister b).last_latch = s.last_latch := by cases b <;> rfl

@[simp] lemma burnLatch_last_motor (s : PrintMechEmulator) (b : Bool) :
    (s.burnLatchRegister b).last_motor_state = s.last_motor_state := by cases b <;> rfl

@[simp] lemma length_addToRow (p : List (List ℚ)) (i : Nat) (bb : List ℚ) :
    (addToRow p i bb).length = p.length := by simp [addToRow]

@[simp] lemma burnLatch_paper_length (s : PrintMechEmulator) (b : Bool) :
    (s.burnLatchRegister b).paper_buffer.length = s.paper_buffer.length := by
  cases b <;> simp [burnLatchRegister]

@[simp] lemma advanceLine_shift (s : PrintMechEmulator) :
    s.advanceLine.shift_register = s.shift_register := rfl

@[simp] lemma advanceLine_latch (s : PrintMechEmulator) :
    s.advanceLine.latch_register = s.latch_register := rfl

@[simp] lemma advanceLine_burn (s : PrintMechEmulator) :
    s.advanceLine.burn_time = s.burn_time := rfl

@[simp] lemma advanceLine_paper (s : PrintMechEmulator) :
    s.advanceLine.paper_buffer = s.paper_buffer ++ [List.replicate DOTS_PER_LINE 0] := rfl

@[simp] lemma advanceLine_motor (s : PrintMechEmulator) :
    s.advanceLine.motor_steps = s.motor_steps := rfl

@[simp] lemma advanceLine_last_timestamp (s : PrintMechEmulator) :
    s.advanceLine.last_timestamp = s.last_timestamp := rfl

@[simp] lemma advanceLine_last_clock (s : PrintMechEmulator) :
    s.advanceLine.last_clock = s.last_clock := rfl

@[simp] lemma advanceLine_last_dst (s : PrintMechEmulator) :
    s.advanceLine.last_dst = s.last_dst := rfl

@[simp] lemma advanceLine_last_latch (s : PrintMechEmulator) :
    s.advanceLine.last_latch = s.last_latch := rfl

@[simp] lemma advanceLine_last_motor (s : PrintMechEmulator) :
    s.advanceLine.last_motor_state = s.last_motor_state := rfl

@[simp] lemma dstStep_shift (s : PrintMechEmulator) (i : SampleRecord) :
    (dstStep s i).shift_register = s.shift_register := by unfold dstStep; split <;> rfl

@[simp] lemma dstStep_latch (s : PrintMechEmulator) (i : SampleRecord) :
    (dstStep s i).latch_register = s.latch_register := by unfold dstStep; split <;> rfl

@[simp] lemma dstStep_paper (s : PrintMechEmulator) (i : SampleRecord) :
    (dstStep s i).paper_buffer = s.paper_buffer := by unfold dstStep; split <;> rfl

@[simp] lemma dstStep_motor (s : PrintMechEmulator) (i : SampleRecord) :
    (dstStep s i).motor_steps = s.motor_steps := by unfold dstStep; split <;> rfl

@[simp] lemma dstStep_last_timestamp (s : PrintMechEmulator) (i : SampleRecord) :
    (dstStep s i).last_timestamp = s.last_timestamp := by unfold dstStep; split <;> rfl

@[simp] lemma dstStep_last_clock (s : PrintMechEmulator) (i : SampleRecord) :
    (dstStep s i).last_clock = s.last_clock := by unfold dstStep; split <;> rfl

@[simp] lemma dstStep_last_dst (s : PrintMechEmulator) (i : SampleRecord) :
    (dstStep s i).last_dst = s.last_dst := by unfold dstStep; split <;> rfl

@[simp] lemma dstStep_last_latch (s : PrintMechEmulator) (i : SampleRecord) :
    (dstStep s i).last_latch = s.last_latch := by unfold dstStep; split <;> rfl

@[simp] lemma dstStep_last_motor (s : PrintMechEmulator) (i : SampleRecord) :
    (dstStep s i).last_motor_state = s.last_motor_state := by unfold dstStep; split <;> rfl

lemma dstStep_burn (s : PrintMechEmulator) (i : SampleRecord) :
    (dstStep s i).burn_time = if s.last_dst ≠ 0 then
      s.burn_time + (i.timestamp - s.last_timestamp) else s.burn_time := by
  unfold dstStep; split <;> rfl

@[simp] lemma latchStep_shift (s : PrintMechEmulator) (i : SampleRecord) :
    (latchStep s i).shift_register = s.shift_register := by unfold latchStep; split <;> simp

@[simp] lemma latchStep_motor (s : PrintMechEmulator) (i : SampleRecord) :
    (latchStep s i).motor_steps = s.motor_steps := by unfold latchStep; split <;> simp

@[simp] lemma latchStep_last_timestamp (s : PrintMechEmulator) (i : SampleRecord) :
    (latchStep s i).last_timestamp = s.last_timestamp := by unfold latchStep; split <;> simp

@[simp] lemma latchStep_last_clock (s : PrintMechEmulator) (i : SampleRecord) :
    (latchStep s i).last_clock = s.last_clock := by unfold latchStep; split <;> simp

@[simp] lemma latchStep_last_dst (s : PrintMechEmulator) (i : SampleRecord) :
    (latchStep s i).last_dst = s.last_dst := by unfold latchStep; split <;> simp

@[simp] lemma latchStep_last_latch (s : PrintMechEmulator) (i : SampleRecord) :
    (latchStep s i).last_latch = s.last_latch := by unfold latchStep; split <;> simp

@[simp] lemma latchStep_last_motor (s : PrintMechEmulator) (i : SampleRecord) :
    (latchStep s i).last_motor_state = s.last_motor_state := by unfold latchStep; split <;> simp

lemma latchStep_latch (s : PrintMechEmulator) (i : SampleRecord) :
    (latchStep s i).latch_register = if s.last_latch ≠ 0 ∧ i.latch = 0 then
      s.shift_register else s.latch_register := by
  unfold latchStep; split <;> simp

lemma latchStep_burn (s : PrintMechEmulator) (i : SampleRecord) :
    (latchStep s i).burn_time = if s.last_latch ≠ 0 ∧ i.latch = 0 then 0
      else s.burn_time := by
  unfold latchStep; split <;> simp

lemma latchStep_paper (s : PrintMechEmulator) (i : SampleRecord) :
    (latchStep s i).paper_buffer = if s.last_latch ≠ 0 ∧ i.latch = 0 then
      (s.burnLatchRegister false).paper_buffer else s.paper_buffer := by
  unfold latchStep; split <;> simp

@[simp] lemma latchStep_paper_length (s : PrintMechEmulator) (i : SampleRecord) :
    (latchStep s i).paper_buffer.length = s.paper_buffer.length := by
  rw [latchStep_paper]; split <;> simp

@[simp] lemma clockStep_latch (s : PrintMechEmulator) (i : SampleRecord) :
    (clockStep s i).latch_register = s.latch_register := by unfold clockStep; split <;> rfl

@[simp] lemma clockStep_paper (s : PrintMechEmulator) (i : SampleRecord) :
    (clockStep s i).paper_buffer = s.paper_buffer := by unfold clockStep; split <;> rfl

@[simp] lemma clockStep_burn (s : PrintMechEmulator) (i : SampleRecord) :
    (clockStep s i).burn_time = s.burn_time := by unfold clockStep; split <;> rfl

@[simp] lemma clockStep_motor (s : PrintMechEmulator) (i : SampleRecord) :
    (clockStep s i).motor_steps = s.motor_steps := by unfold clockStep; split <;> rfl

@[simp] lemma clockStep_last_timestamp (s : PrintMechEmulator) (i : SampleRecord) :
    (clockStep s i).last_timestamp = s.last_timestamp := by unfold clockStep; split <;> rfl

@[simp] lemma clockStep_last_clock (s : PrintMechEmulator) (i : SampleRecord) :
    (clockStep s i).last_clock = s.last_clock := by unfold clockStep; split <;> rfl

@[simp] lemma clockStep_last_dst (s : PrintMechEmulator) (i : SampleRecord) :
    (clockStep s i).last_dst = s.last_dst := by unfold clockStep; split <;> rfl

@[simp] lemma clockStep_last_latch (s : PrintMechEmulator) (i : SampleRecord) :
    (clockStep s i).last_latch = s.last_latch := by unfold clockStep; split <;> rfl

@[simp] lemma clockStep_last_motor (s : PrintMechEmulator) (i : SampleRecord) :
    (clockStep s i).last_motor_state = s.last_motor_state := by unfold clockStep; split <;> rfl

lemma clockStep_shift (s : PrintMechEmulator) (i : SampleRecord) :
    (clockStep s i).shift_register = if i.clock ≠ 0 ∧ s.last_clock = 0 then
      s.shift_register.tail ++ [i.data] else s.shift_register := by
  unfold clockStep; split <;> rfl

@[simp] lemma motorStep_shift (s : PrintMechEmulator) (i : SampleRecord) :
    (motorStep s i).shift_register = s.shift_register := by
  unfold motorStep; split <;> [skip; rfl]; split <;> [simp; skip]; split <;> simp

@[simp] lemma motorStep_latch (s : PrintMechEmulator) (i : SampleRecord) :
    (motorStep s i).latch_register = s.latch_register := by
  unfold motorStep; split <;> [skip; rfl]; split <;> [simp; skip]; split <;> simp

@[simp] lemma motorStep_last_timestamp (s : PrintMechEmulator) (i : SampleRecord) :
    (motorStep s i).last_timestamp = s.last_timestamp := by
  unfold motorStep; split <;> [skip; rfl]; split <;> [simp; skip]; split <;> simp

@[simp] lemma motorStep_last_clock (s : PrintMechEmulator) (i : SampleRecord) :
    (motorStep s i).last_clock = s.last_clock := by
  unfold motorStep; split <;> [skip; rfl]; split <;> [simp; skip]; split <;> simp

@[simp] lemma motorStep_last_dst (s : PrintMechEmulator) (i : SampleRecord) :
    (motorStep s i).last_dst = s.last_dst := by
  unfold motorStep; split <;> [skip; rfl]; split <;> [simp; skip]; split <;> simp

@[simp] lemma motorStep_last_latch (s : PrintMechEmulator) (i : SampleRecord) :
    (motorStep s i).last_latch = s.last_latch := by
  unfold motorStep; split <;> [skip; rfl]; split <;> [simp; skip]; split <;> simp

@[simp] lemma motorStep_last_motor (s : PrintMechEmulator) (i : SampleRecord) :
    (motorStep s i).last_motor_state = s.last_motor_state := by
  unfold motorStep; split <;> [skip; rfl]; split <;> [simp; skip]; split <;> simp

lemma motorStep_no_change (s : PrintMechEmulator) (i : SampleRecord)
    (h : i.motor1 + i.motor2 = s.last_motor_state) : motorStep s i = s := by
  unfold motorStep; simp [h]

lemma motorStep_steps0 (s : PrintMechEmulator) (i : SampleRecord)
    (h : i.motor1 + i.motor2 ≠ s.last_motor_state) (h0 : s.motor_steps = 0) :
    motorStep s i = { s.burnLatchRegister true with motor_steps := 2 } := by
  unfold motorStep; simp [h, h0]

lemma motorStep_steps2 (s : PrintMechEmulator) (i : SampleRecord)
    (h : i.motor1 + i.motor2 ≠ s.last_motor_state) (h2 : s.motor_steps = 2) :
    motorStep s i = { (s.burnLatchRegister false).advanceLine with motor_steps := 0 } := by
  unfold motorStep; simp [h, h2]

@[simp] lemma commitStep_shift (s : PrintMechEmulator) (i : SampleRecord) :
    (commitStep s i).shift_register = s.shift_register := rfl

@[simp] lemma commitStep_latch (s : PrintMechEmulator) (i : SampleRecord) :
    (commitStep s i).latch_register = s.latch_register := rfl

@[simp] lemma commitStep_paper (s : PrintMechEmulator) (i : SampleRecord) :
    (commitStep s i).paper_buffer = s.paper_buffer := rfl

@[simp] lemma commitStep_burn (s : PrintMechEmulator) (i : SampleRecord) :
    (commitStep s i).burn_time = s.burn_time := rfl

@[simp] lemma commitStep_motor (s : PrintMechEmulator) (i : SampleRecord) :
    (commitStep s i).motor_steps = s.motor_steps := rfl

@[simp] lemma update_last_timestamp (s : PrintMechEmulator) (i : SampleRecord) :
    (s.update i).last_timestamp = i.timestamp := rfl

@[simp] lemma update_last_clock (s : PrintMechEmulator) (i : SampleRecord) :
    (s.update i).last_clock = i.clock := rfl

@[simp] lemma update_last_dst (s : PrintMechEmulator) (i : SampleRecord) :
    (s.update i).last_dst = i.dst := rfl

@[simp] lemma update_last_latch (s : PrintMechEmulator) (i : SampleRecord) :
    (s.update i).last_latch = i.latch := rfl

@[simp] lemma update_last_motor (s : PrintMechEmulator) (i : SampleRecord) :
    (s.update i).last_motor_state = i.motor1 + i.motor2 := rfl

/-- Well-formedness of an emulator state: the registers and every paper row
have the head width, and the buffer keeps at least two rows.  This holds for
the initial state and is preserved by `update`. -/
def WF (s : PrintMechEmulator) : Prop :=
  s.shift_register.length = DOTS_PER_LINE ∧
  s.latch_register.length = DOTS_PER_LINE ∧
  2 ≤ s.paper_buffer.length ∧
  ∀ row ∈ s.paper_buffer, row.length = DOTS_PER_LINE

lemma WF_init (r : SampleRecord) : WF (init r) := by
  refine ⟨by simp [init], by simp [init], by simp [init], ?_⟩
  intro row hrow
  have hr : row = List.replicate DOTS_PER_LINE (0 : ℚ) := by
    simpa [init] using hrow
  simp [hr]

lemma rows_addToRow (p : List (List ℚ)) (i : Nat) (bb : List ℚ)
    (hp : ∀ row ∈ p, row.length = DOTS_PER_LINE)
    (hbb : bb.length = DOTS_PER_LINE) (hi : i < p.length) :
    ∀ row ∈ addToRow p i bb, row.length = DOTS_PER_LINE := by
  intro row hrow
  rcases List.mem_or_eq_of_mem_set hrow with h | h
  · exact hp row h
  · have hmem : p.getD i [] ∈ p := by
      rw [List.getD_eq_getElem p [] hi]; exact List.getElem_mem hi
    have hlen : (p.getD i []).length = DOTS_PER_LINE := hp _ hmem
    rw [h, List.length_zipWith, hlen, hbb, min_self]

lemma WF_burnLatch (s : PrintMechEmulator) (b : Bool) (h : WF s) :
    WF (s.burnLatchRegister b) := by
  obtain ⟨h1, h2, h3, h4⟩ := h
  refine ⟨by simpa, by simpa, by simpa, ?_⟩
  have hbb : (s.latch_register.map (fun x : Nat => (x : ℚ) * s.burn_time)).length
      = DOTS_PER_LINE := by simpa
  cases b with
  | false =>
    simp only [burnLatchRegister]
    exact rows_addToRow _ _ _ h4 hbb (by omega)
  | true =>
    simp only [burnLatchRegister]
    apply rows_addToRow
    · exact rows_addToRow _ _ _ h4 hbb (by omega)
    · exact hbb
    · simp; omega

lemma WF_advanceLine (s : PrintMechEmulator) (h : WF s) : WF s.advanceLine := by
  obtain ⟨h1, h2, h3, h4⟩ := h
  refine ⟨by simpa, by simpa, by simp; omega, ?_⟩
  intro row hrow
  simp only [advanceLine_paper, List.mem_append, List.mem_singleton] at hrow
  rcases hrow with h | h
  · exact h4 row h
  · simp [h]

lemma WF_dstStep (s : PrintMechEmulator) (i : SampleRecord) (h : WF s) :
    WF (dstStep s i) := by
  unfold dstStep; split
  · exact h
  · exact h

lemma WF_latchStep (s : PrintMechEmulator) (i : SampleRecord) (h : WF s) :
    WF (latchStep s i) := by
  unfold latchStep; split
  · obtain ⟨h1, h2, h3, h4⟩ := WF_burnLatch s false h
    exact ⟨by simpa using h.1, by simpa using h.1, h3, h4⟩
  · exact h

lemma WF_clockStep (s : PrintMechEmulator) (i : SampleRecord) (h : WF s) :
    WF (clockStep s i) := by
  unfold clockStep; split
  · obtain ⟨h1, h2, h3, h4⟩ := h
    refine ⟨?_, h2, h3, h4⟩
    rw [List.length_append, List.length_tail, h1]
    simp [DOTS_PER_LINE]
  · exact h

lemma WF_motorStep (s : PrintMechEmulator) (i : SampleRecord) (h : WF s) :
    WF (motorStep s i) := by
  unfold motorStep; split
  · split
    · obtain ⟨h1, h2, h3, h4⟩ := WF_burnLatch _ true h
      exact ⟨h1, h2, h3, h4⟩
    · split
      · obtain ⟨h1, h2, h3, h4⟩ := WF_advanceLine _ (WF_burnLatch _ false h)
        exact ⟨h1, h2, h3, h4⟩
      · exact h
  · exact h

lemma WF_update (s : PrintMechEmulator) (i : SampleRecord) (h : WF s) :
    WF (s.update i) := by
  rw [update_stages]
  obtain ⟨h1, h2, h3, h4⟩ :=
    WF_motorStep _ i (WF_clockStep _ i (WF_latchStep _ i (WF_dstStep s i h)))
  exact ⟨h1, h2, h3, h4⟩

@[simp] lemma run_nil (s : PrintMechEmulator) : run s [] = s := rfl

@[simp] lemma run_cons (s : PrintMechEmulator) (r : SampleRecord)
    (rs : List SampleRecord) : run s (r :: rs) = run (s.update r) rs := rfl

lemma run_append (s : PrintMechEmulator) (A B : List SampleRecord) :
    run s (A ++ B) = run (run s A) B := by
  simp [run, List.foldl_append]

lemma WF_run (s : PrintMechEmulator) (rs : List SampleRecord) (h : WF s) :
    WF (run s rs) := by
  induction rs generalizing s with
  | nil => simpa
  | cons r rt ih => exact ih _ (WF_update s r h)

/-! Motor cadence step lemmas. -/

lemma update_motor_eq (s : PrintMechEmulator) (i : SampleRecord)
    (h : i.motor1 + i.motor2 = s.last_motor_state) :
    (s.update i).motor_steps = s.motor_steps ∧
    (s.update i).paper_buffer.length = s.paper_buffer.length := by
  rw [update_stages, motorStep_no_change _ _ (by simpa using h)]
  exact ⟨by simp, by simp⟩

lemma update_motor_change0 (s : PrintMechEmulator) (i : SampleRecord)
    (h : i.motor1 + i.motor2 ≠ s.last_motor_state) (h0 : s.motor_steps = 0) :
    (s.update i).motor_steps = 2 ∧
    (s.update i).paper_buffer.length = s.paper_buffer.length := by
  rw [update_stages, motorStep_steps0 _ _ (by simpa using h) (by simpa using h0)]
  exact ⟨by simp, by simp⟩

lemma update_motor_change2 (s : PrintMechEmulator) (i : SampleRecord)
    (h : i.motor1 + i.motor2 ≠ s.last_motor_state) (h2 : s.motor_steps = 2) :
    (s.update i).motor_steps = 0 ∧
    (s.update i).paper_buffer.length = s.paper_buffer.length + 1 := by
  rw [update_stages, motorStep_steps2 _ _ (by simpa using h) (by simpa using h2)]
  exact ⟨by simp, by simp⟩

lemma motorStep_paper_length (s : PrintMechEmulator) (i : SampleRecord) :
    (motorStep s i).paper_buffer.length = s.paper_buffer.length ∨
    (motorStep s i).paper_buffer.length = s.paper_buffer.length + 1 := by
  unfold motorStep
  split
  · split
    · left; simp
    · split
      · right; simp
      · left; rfl
  · left; rfl

lemma update_paper_length (s : PrintMechEmulator) (i : SampleRecord) :
    (s.update i).paper_buffer.length = s.paper_buffer.length ∨
    (s.update i).paper_buffer.length = s.paper_buffer.length + 1 := by
  rw [update_stages]
  rcases motorStep_paper_length (clockStep (latchStep (dstStep s i) i) i) i with h | h
  · left; simp [h]
  · right; simp [h]

/-- Row-advance cadence: starting from a state whose step counter is 0 or 2,
running a trace grows the paper by one row per 4 accumulated motor steps
(2 per observed motor-state change) and leaves the step counter at the
remainder. -/
lemma run_cadence (rs : List SampleRecord) : ∀ (s : PrintMechEmulator),
    s.motor_steps = 0 ∨ s.motor_steps = 2 →
    (run s rs).paper_buffer.length
        = s.paper_buffer.length
          + (s.motor_steps + 2 * motorChangesN s.last_motor_state rs) / 4 ∧
    (run s rs).motor_steps
        = (s.motor_steps + 2 * motorChangesN s.last_motor_state rs) % 4 := by
  induction rs with
  | nil =>
    intro s hs
    rcases hs with h | h <;> simp [motorChangesN, h]
  | cons r rt ih =>
    intro s hs
    rw [run_cons]
    by_cases hch : sumPhase r = s.last_motor_state
    · obtain ⟨hm, hp⟩ := update_motor_eq s r hch
      obtain ⟨hl2, hm2⟩ := ih (s.update r) (by rw [hm]; exact hs)
      have hcount : motorChangesN s.last_motor_state (r :: rt)
          = motorChangesN (sumPhase r) rt := by
        simp [motorChangesN, hch]
      have hlast : (s.update r).last_motor_state = sumPhase r := rfl
      rw [hlast] at hl2 hm2
      constructor
      · rw [hl2, hp, hm, hcount]
      · rw [hm2, hm, hcount]
    · have hcount : motorChangesN s.last_motor_state (r :: rt)
          = 1 + motorChangesN (sumPhase r) rt := by
        simp [motorChangesN, hch]
      have hlast : (s.update r).last_motor_state = sumPhase r := rfl
      rcases hs with h0 | h2
      · obtain ⟨hm, hp⟩ := update_motor_change0 s r hch h0
        obtain ⟨hl2, hm2⟩ := ih (s.update r) (by rw [hm]; right; rfl)
        rw [hlast] at hl2 hm2
        rw [hl2, hm2, hp, hm, hcount, h0]
        omega
      · obtain ⟨hm, hp⟩ := update_motor_change2 s r hch h2
        obtain ⟨hl2, hm2⟩ := ih (s.update r) (by rw [hm]; left; rfl)
        rw [hlast] at hl2 hm2
        rw [hl2, hm2, hp, hm, hcount, h2]
        omega

/-- Step-counter invariant: after any update from a state with counter 0 or
2, the counter is again 0 or 2. -/
lemma update_motor_steps_inv (s : PrintMechEmulator) (i : SampleRecord)
    (hs : s.motor_steps = 0 ∨ s.motor_steps = 2) :
    (s.update i).motor_steps = 0 ∨ (s.update i).motor_steps = 2 := by
  by_cases hch : i.motor1 + i.motor2 = s.last_motor_state
  · rw [(update_motor_eq s i hch).1]; exact hs
  · rcases hs with h0 | h2
    · right; exact (update_motor_change0 s i hch h0).1
    · left; exact (update_motor_change2 s i hch h2).1

lemma getD_replicate_zero (n j : Nat) :
    (List.replicate n (0 : ℚ)).getD j 0 = 0 := by
  rcases lt_or_ge j n with h | h
  · rw [List.getD_eq_getElem _ _ (by simpa using h)]; simp
  · rw [List.getD_eq_default _ _ (by simpa using h)]

lemma colSum_addToRow (p : List (List ℚ)) (i : Nat) (bb : List ℚ) (j : Nat)
    (hi : i < p.length) (hrow : (p.getD i []).length = bb.length) :
    colSum j (addToRow p i bb) = colSum j p + bb.getD j 0 := by
  unfold colSum addToRow
  rw [sum_map_getD_set _ _ _ _ hi, getD_zipWith_add _ _ _ hrow]
  ring

lemma colSum_append_zero (p : List (List ℚ)) (j n : Nat) :
    colSum j (p ++ [List.replicate n 0]) = colSum j p := by
  unfold colSum
  rw [List.map_append, List.sum_append]
  simp [getD_replicate_zero]

/-- Reading the burn buffer `latch_register * burn_time` at column `j`. -/
lemma burnBuffer_getD (s : PrintMechEmulator) (j : Nat) :
    (s.latch_register.map (fun b : Nat => (b : ℚ) * s.burn_time)).getD j 0
      = latchBit j s * s.burn_time := by
  rw [latchBit, getD_map_mul]

lemma burnLatch_colSum_false (s : PrintMechEmulator) (h : WF s) (j : Nat) :
    colSum j (s.burnLatchRegister false).paper_buffer
      = colSum j s.paper_buffer + latchBit j s * s.burn_time := by
  obtain ⟨h1, h2, h3, h4⟩ := h
  have hi : s.paper_buffer.length - 2 < s.paper_buffer.length := by omega
  have hmem : s.paper_buffer.getD (s.paper_buffer.length - 2) [] ∈ s.paper_buffer := by
    rw [List.getD_eq_getElem _ [] hi]; exact List.getElem_mem hi
  show colSum j (addToRow s.paper_buffer (s.paper_buffer.length - 2) _) = _
  rw [colSum_addToRow _ _ _ _ hi (by rw [h4 _ hmem, List.length_map, h2]),
    burnBuffer_getD]

lemma burnLatch_colSum_true (s : PrintMechEmulator) (h : WF s) (j : Nat) :
    colSum j (s.burnLatchRegister true).paper_buffer
      = colSum j s.paper_buffer + 2 * (latchBit j s * s.burn_time) := by
  obtain ⟨h1, h2, h3, h4⟩ := h
  have hi : s.paper_buffer.length - 2 < s.paper_buffer.length := by omega
  have hmem : s.paper_buffer.getD (s.paper_buffer.length - 2) [] ∈ s.paper_buffer := by
    rw [List.getD_eq_getElem _ [] hi]; exact List.getElem_mem hi
  have hi1 : s.paper_buffer.length - 1 < s.paper_buffer.length := by omega
  have hne : s.paper_buffer.length - 2 ≠ s.paper_buffer.length - 1 := by omega
  have hmem1 : s.paper_buffer.getD (s.paper_buffer.length - 1) [] ∈ s.paper_buffer := by
    rw [List.getD_eq_getElem _ [] hi1]; exact List.getElem_mem hi1
  show colSum j (addToRow (addToRow s.paper_buffer (s.paper_buffer.length - 2) _)
      ((addToRow s.paper_buffer (s.paper_buffer.length - 2) _).length - 1) _) = _
  rw [length_addToRow]
  have hrow1 : ((addToRow s.paper_buffer (s.paper_buffer.length - 2)
      (s.latch_register.map (fun b : Nat => (b : ℚ) * s.burn_time))).getD
        (s.paper_buffer.length - 1) []).length
      = (s.latch_register.map (fun b : Nat => (b : ℚ) * s.burn_time)).length := by
    rw [addToRow, list_getD_set_ne _ _ _ _ _ hne]
    rw [h4 _ hmem1, List.length_map, h2]
  rw [colSum_addToRow _ _ _ _ (by simpa using hi1) hrow1]
  rw [colSum_addToRow _ _ _ _ hi (by rw [h4 _ hmem, List.length_map, h2])]
  rw [burnBuffer_getD]
  ring

/-- Draining with an already-zero accumulator is a no-op. -/
lemma burnLatch_zero_burn (s : PrintMechEmulator) (h : WF s)
    (h0 : s.burn_time = 0) : s.burnLatchRegister false = s := by
  obtain ⟨h1, h2, h3, h4⟩ := h
  have hi : s.paper_buffer.length - 2 < s.paper_buffer.length := by omega
  have hmem : s.paper_buffer.getD (s.paper_buffer.length - 2) [] ∈ s.paper_buffer := by
    rw [List.getD_eq_getElem _ [] hi]; exact List.getElem_mem hi
  ext1
  · simp
  · simp
  · show (addToRow s.paper_buffer (s.paper_buffer.length - 2) _) = s.paper_buffer
    rw [addToRow, h0, zipWith_add_mul_zero _ _ (by rw [h4 _ hmem, h2])]
    exact list_set_getD_self _ _ _ hi
  · simp [h0]
  · simp
  · simp
  · simp
  · simp
  · simp
  · simp

/-- The update of a record whose values the state has already committed is a
no-op: no interval elapses and no edge fires. -/
lemma update_committed (s : PrintMechEmulator) (r : SampleRecord)
    (ht : r.timestamp = s.last_timestamp) (hc : r.clock = s.last_clock)
    (hd : r.dst = s.last_dst) (hl : r.latch = s.last_latch)
    (hm : r.motor1 + r.motor2 = s.last_motor_state) :
    s.update r = s := by
  rw [update_stages]
  have e1 : dstStep s r = s := by
    unfold dstStep; split
    · rw [ht]; simp
    · rfl
  have e2 : latchStep s r = s := by
    unfold latchStep; split
    · rename_i hcond
      obtain ⟨ha, hb⟩ := hcond
      rw [hl] at hb
      exact absurd hb ha
    · rfl
  have e3 : clockStep s r = s := by
    unfold clockStep; split
    · rename_i hcond
      obtain ⟨ha, hb⟩ := hcond
      rw [hc, hb] at ha
      exact absurd rfl ha
    · rfl
  rw [e1, e2, e3, motorStep_no_change s r hm]
  unfold commitStep
  rw [ht, hc, hd, hl, hm]

/-! The conserved column quantity `stored + latch-weighted accumulator`,
stage by stage. -/

lemma Q_dstStep (s : PrintMechEmulator) (r : SampleRecord) (j : Nat) :
    colSum j (dstStep s r).paper_buffer
      + latchBit j (dstStep s r) * (dstStep s r).burn_time
    = colSum j s.paper_buffer + latchBit j s * s.burn_time
      + (if s.last_dst ≠ 0 then latchBit j s * (r.timestamp - s.last_timestamp)
          else 0) := by
  rw [dstStep_paper, dstStep_burn]
  have hl : latchBit j (dstStep s r) = latchBit j s := by simp [latchBit]
  rw [hl]
  split <;> ring

lemma Q_latchStep (s : PrintMechEmulator) (r : SampleRecord) (j : Nat)
    (h : WF s) :
    colSum j (latchStep s r).paper_buffer
      + latchBit j (latchStep s r) * (latchStep s r).burn_time
    = colSum j s.paper_buffer + latchBit j s * s.burn_time := by
  by_cases hcond : s.last_latch ≠ 0 ∧ r.latch = 0
  · have h0 : latchStep s r = { s.burnLatchRegister false with
        latch_register := (s.burnLatchRegister false).shift_register } := by
      unfold latchStep; rw [if_pos hcond]
    rw [h0]
    show colSum j (s.burnLatchRegister false).paper_buffer
        + latchBit j { s.burnLatchRegister false with
            latch_register := (s.burnLatchRegister false).shift_register }
          * (s.burnLatchRegister false).burn_time
      = colSum j s.paper_buffer + latchBit j s * s.burn_time
    rw [burnLatch_burn, mul_zero, add_zero, burnLatch_colSum_false s h j]
  · have h0 : latchStep s r = s := by unfold latchStep; rw [if_neg hcond]
    rw [h0]

lemma Q_clockStep (s : PrintMechEmulator) (r : SampleRecord) (j : Nat) :
    colSum j (clockStep s r).paper_buffer
      + latchBit j (clockStep s r) * (clockStep s r).burn_time
    = colSum j s.paper_buffer + latchBit j s * s.burn_time := by
  rw [clockStep_paper, clockStep_burn]
  have hl : latchBit j (clockStep s r) = latchBit j s := by simp [latchBit]
  rw [hl]

lemma Q_motorStep (s : PrintMechEmulator) (r : SampleRecord) (j : Nat)
    (h : WF s) :
    colSum j (motorStep s r).paper_buffer
      + latchBit j (motorStep s r) * (motorStep s r).burn_time
    = colSum j s.paper_buffer + latchBit j s * s.burn_time
      + (if r.motor1 + r.motor2 ≠ s.last_motor_state ∧ s.motor_steps + 2 = 2
          then latchBit j s * s.burn_time else 0) := by
  by_cases hch : r.motor1 + r.motor2 ≠ s.last_motor_state
  · by_cases h2 : s.motor_steps + 2 = 2
    · have h0 : motorStep s r
          = { s.burnLatchRegister true with motor_steps := s.motor_steps + 2 } := by
        unfold motorStep; rw [if_pos hch, if_pos h2]
      rw [h0]
      show colSum j (s.burnLatchRegister true).paper_buffer
          + latchBit j { s.burnLatchRegister true with
              motor_steps := s.motor_steps + 2 }
            * (s.burnLatchRegister true).burn_time = _
      have hl : latchBit j { s.burnLatchRegister true with
          motor_steps := s.motor_steps + 2 } = latchBit j s := by simp [latchBit]
      rw [burnLatch_burn, mul_zero, add_zero, burnLatch_colSum_true s h j,
        if_pos ⟨hch, h2⟩]
      ring
    · by_cases h4 : 4 ≤ s.motor_steps + 2
      · have h0 : motorStep s r
            = { (s.burnLatchRegister false).advanceLine with motor_steps := 0 } := by
          unfold motorStep; rw [if_pos hch, if_neg h2, if_pos h4]
        rw [h0]
        show colSum j ((s.burnLatchRegister false).advanceLine).paper_buffer
            + latchBit j { (s.burnLatchRegister false).advanceLine with
                motor_steps := 0 }
              * ((s.burnLatchRegister false).advanceLine).burn_time = _
        have hb : ((s.burnLatchRegister false).advanceLine).burn_time = 0 := by simp
        rw [advanceLine_paper, colSum_append_zero, hb, mul_zero, add_zero,
          burnLatch_colSum_false s h j, if_neg (by tauto), add_zero]
      · have h0 : motorStep s r = { s with motor_steps := s.motor_steps + 2 } := by
          unfold motorStep; rw [if_pos hch, if_neg h2, if_neg h4]
        rw [h0]
        show colSum j s.paper_buffer
            + latchBit j { s with motor_steps := s.motor_steps + 2 } * s.burn_time = _
        have hl : latchBit j { s with motor_steps := s.motor_steps + 2 }
            = latchBit j s := by simp [latchBit]
        rw [hl, if_neg (by tauto), add_zero]
  · have h0 : motorStep s r = s := by unfold motorStep; rw [if_neg hch]
    rw [h0, if_neg (by tauto), add_zero]

lemma Q_commitStep (s : PrintMechEmulator) (r : SampleRecord) (j : Nat) :
    colSum j (commitStep s r).paper_buffer
      + latchBit j (commitStep s r) * (commitStep s r).burn_time
    = colSum j s.paper_buffer + latchBit j s * s.burn_time := by
  rw [commitStep_paper, commitStep_burn]
  have hl : latchBit j (commitStep s r) = latchBit j s := by simp [latchBit]
  rw [hl]

lemma update_colQuantity (s : PrintMechEmulator) (r : SampleRecord) (j : Nat)
    (h : WF s) :
    colSum j (s.update r).paper_buffer
      + latchBit j (s.update r) * (s.update r).burn_time
    = colSum j s.paper_buffer + latchBit j s * s.burn_time
      + (if s.last_dst ≠ 0 then latchBit j s * (r.timestamp - s.last_timestamp)
          else 0)
      + (if r.motor1 + r.motor2 ≠ s.last_motor_state ∧ s.motor_steps + 2 = 2
          then latchBit j (latchStep (dstStep s r) r)
            * (latchStep (dstStep s r) r).burn_time
          else 0) := by
  have hWF1 := WF_dstStep s r h
  have hWF2 := WF_latchStep _ r hWF1
  have hWF3 := WF_clockStep _ r hWF2
  rw [update_stages, Q_commitStep, Q_motorStep _ _ _ hWF3]
  have hite : (if r.motor1 + r.motor2
        ≠ (clockStep (latchStep (dstStep s r) r) r).last_motor_state
        ∧ (clockStep (latchStep (dstStep s r) r) r).motor_steps + 2 = 2
      then latchBit j (clockStep (latchStep (dstStep s r) r) r)
        * (clockStep (latchStep (dstStep s r) r) r).burn_time
      else 0)
    = (if r.motor1 + r.motor2 ≠ s.last_motor_state ∧ s.motor_steps + 2 = 2
        then latchBit j (latchStep (dstStep s r) r)
          * (latchStep (dstStep s r) r).burn_time
        else 0) := by
    simp only [clockStep_last_motor, latchStep_last_motor, dstStep_last_motor,
      clockStep_motor, latchStep_motor, dstStep_motor, clockStep_burn]
    have hl : latchBit j (clockStep (latchStep (dstStep s r) r) r)
        = latchBit j (latchStep (dstStep s r) r) := by simp [latchBit]
    rw [hl]
  rw [hite, Q_clockStep, Q_latchStep _ _ _ hWF1, Q_dstStep]

lemma run_colQuantity (rs : List SampleRecord) : ∀ (s : PrintMechEmulator),
    WF s → ∀ j,
    colSum j (run s rs).paper_buffer
      + latchBit j (run s rs) * (run s rs).burn_time
    = colSum j s.paper_buffer + latchBit j s * s.burn_time + colGhost j s rs := by
  induction rs with
  | nil => intro s h j; simp [colGhost]
  | cons r rt ih =>
    intro s h j
    rw [run_cons, ih _ (WF_update s r h) j, update_colQuantity s r j h]
    simp only [colGhost]
    ring

end PrintMechEmulator

/-! Decoder lemmas: the global-counter reconstruction recovers true tick
counts. -/

/-- The 8-bit wrap test of `_get_samples`: with `a ≤ b` and a gap below 256,
the raw value drops exactly when the tick count crossed a multiple of 256. -/
lemma wrap_step (a b : Nat) (h1 : a ≤ b) (h2 : b - a < 256) :
    (if b % 256 < a % 256 then 256 * (a / 256) + 256 else 256 * (a / 256))
      = 256 * (b / 256) := by
  split <;> omega

lemma adjustCounter_eq (ticks : List Nat) : ∀ (t0 : Nat),
    List.Chain (fun a b => a ≤ b ∧ b - a < 256) t0 ticks →
    adjustCounter (256 * (t0 / 256)) ((t0 :: ticks).map (· % 256))
      = t0 :: ticks := by
  induction ticks with
  | nil =>
    intro t0 _
    simp only [List.map_cons, List.map_nil, adjustCounter]
    congr 1
    omega
  | cons t1 rest ih =>
    intro t0 hch
    cases hch with
    | cons hR htl =>
      obtain ⟨hle, hlt⟩ := hR
      have hg := wrap_step t0 t1 hle hlt
      have hrec := ih t1 htl
      simp only [List.map_cons] at hrec ⊢
      rw [adjustCounter]
      congr 1
      · omega
      · rw [hg]
        exact hrec

lemma countDecreases_global (ticks : List Nat) : ∀ (t0 : Nat),
    List.Chain (fun a b => a ≤ b ∧ b - a < 256) t0 ticks →
    256 * (t0 / 256) + 256 * countDecreases ((t0 :: ticks).map (· % 256))
      = 256 * ((ticks.getLastD t0) / 256) := by
  induction ticks with
  | nil =>
    intro t0 _
    simp [countDecreases]
  | cons t1 rest ih =>
    intro t1fake hch
    cases hch with
    | cons hR htl =>
      obtain ⟨hle, hlt⟩ := hR
      have hrec := ih t1 htl
      simp only [List.map_cons, countDecreases, List.getLastD_cons] at hrec ⊢
      by_cases hw : t1 % 256 < t1fake % 256 <;> simp only [hw, if_pos, if_neg,
        not_false_iff, ite_true, ite_false] <;> omega

lemma getLastD_map_mod (l : List Nat) : ∀ (a : Nat),
    (l.map (· % 256)).getLastD (a % 256) = (l.getLastD a) % 256 := by
  induction l with
  | nil => intro a; rfl
  | cons b t ih =>
    intro a
    simp only [List.map_cons, List.getLastD_cons]
    exact ih b

/-- Correctness of one batch of `_get_samples` counter reconstruction: if the
decoder state encodes the previous batch's final tick `tprev` and the batch's
raw counters are the low 8 bits of true ticks `u :: rest` that advance by
fewer than 256 ticks per sample, the adjusted counters are exactly the true
ticks and the new state encodes the batch's final tick. -/
lemma getSamplesCounter_correct (tprev u : Nat) (rest : List Nat)
    (st : DecoderState)
    (hg : st.global_counter = 256 * (tprev / 256))
    (hl : st.last_count = tprev % 256)
    (hch : List.Chain (fun a b => a ≤ b ∧ b - a < 256) tprev (u :: rest)) :
    (getSamplesCounter st ((u :: rest).map (· % 256))).1 = u :: rest ∧
    (getSamplesCounter st ((u :: rest).map (· % 256))).2.global_counter
      = 256 * ((rest.getLastD u) / 256) ∧
    (getSamplesCounter st ((u :: rest).map (· % 256))).2.last_count
      = (rest.getLastD u) % 256 := by
  cases hch with
  | cons hR htl =>
    obtain ⟨hle, hlt⟩ := hR
    have hg1 : (if u % 256 < st.last_count then st.global_counter + 256
        else st.global_counter) = 256 * (u / 256) := by
      rw [hl, hg]
      exact wrap_step tprev u hle hlt
    simp only [List.map_cons, getSamplesCounter]
    refine ⟨?_, ?_, ?_⟩
    · rw [hg1]
      have := adjustCounter_eq rest u htl
      simpa using this
    · show (if u % 256 < st.last_count then st.global_counter + 256
          else st.global_counter)
        + 256 * countDecreases (u % 256 :: rest.map (· % 256)) = _
      rw [hg1]
      have := countDecreases_global rest u htl
      simpa using this
    · show (u % 256 :: rest.map (· % 256)).getLastD 0 = _
      rw [List.getLastD_cons]
      exact getLastD_map_mod rest u

/-- Division by the positive counter frequency preserves strict increase. -/
lemma chain_div_mono (rest : List Nat) : ∀ (u : Nat),
    List.Chain (· < ·) u rest →
    List.Chain (· < ·) ((u : ℚ) / countFreq)
      (rest.map (fun k : Nat => (k : ℚ) / countFreq)) := by
  induction rest with
  | nil => intro u _; exact List.Chain.nil
  | cons b t ih =>
    intro u hch
    cases hch with
    | cons hR htl =>
      simp only [List.map_cons]
      refine List.Chain.cons ?_ (ih b htl)
      have hF : (0 : ℚ) < countFreq := by norm_num [countFreq]
      exact (div_lt_div_iff_of_pos_right hF).mpr (by exact_mod_cast hR)

/-! Rasterisation helper lemmas. -/

namespace PrintMechEmulator

lemma pixelOf_zero : pixelOf 0 = 255 := by
  norm_num [pixelOf]

lemma map_pixel_row_getD (row : List ℚ) : ∀ (j : Nat),
    (row.map pixelOf).getD j 255 = pixelOf (row.getD j 0) := by
  induction row with
  | nil => intro j; simp [pixelOf_zero]
  | cons x t ih =>
    intro j
    cases j with
    | zero => simp
    | succ n => simpa using ih n

lemma map_pixel_paper_getD (p : List (List ℚ)) : ∀ (i : Nat),
    (p.map (fun row => row.map pixelOf)).getD i [] = (p.getD i []).map pixelOf := by
  induction p with
  | nil => intro i; simp
  | cons r t ih =>
    intro i
    cases i with
    | zero => simp
    | succ n => simpa using ih n

lemma pixelOf_nonneg (t : ℚ) : 0 ≤ pixelOf t := le_max_right _ _

lemma pixelOf_le (t : ℚ) (h : 0 ≤ t) : pixelOf t ≤ 255 := by
  unfold pixelOf
  have h1 : (0 : ℤ) ≤ ⌈t * 25000⌉ := by positivity
  omega

end PrintMechEmulator

/-! Claims. -/

open PrintMechEmulator

/-- C1, counterexample: the emulator appends a row once per 2 observed phase
changes, not once per 4 as the claim states.  With the packed phase of the
spec, two changes (00 to 01 to 11) already append a row (buffer grows from 2
to 3 rows, while once-per-4 predicts 2 + 2/4 = 2 rows); moreover a change of
the packed phase from 01 to 10 leaves the sum `motor1 + motor2` unchanged, so
the emulator adds 0 steps for it, not 2. -/
theorem claimC1_counterexample :
    packedChangesN (packedPhase ⟨0,0,0,0,0,0,0⟩)
        [⟨0,0,0,0,0,1,0⟩, ⟨0,0,0,0,0,1,1⟩] = 2 ∧
    (run (init ⟨0,0,0,0,0,0,0⟩)
        [⟨0,0,0,0,0,1,0⟩, ⟨0,0,0,0,0,1,1⟩]).paper_buffer.length
      ≠ 2 + packedChangesN (packedPhase ⟨0,0,0,0,0,0,0⟩)
          [⟨0,0,0,0,0,1,0⟩, ⟨0,0,0,0,0,1,1⟩] / 4 ∧
    packedPhase (⟨0,0,0,0,0,0,1⟩ : SampleRecord)
        ≠ packedPhase (⟨0,0,0,0,0,1,0⟩ : SampleRecord) ∧
    (run (init ⟨0,0,0,0,0,1,0⟩) [⟨0,0,0,0,0,0,1⟩]).motor_steps = 0 := by
  decide

/-- C1, amended: the emulator detects a phase change through the sum
`motor1 + motor2`; every detected change adds 2 motor steps, a new all-zero
row is appended exactly once per 2 detected changes (4 motor steps), and the
first change of each group of two triggers the between-rows burn into both
the active and the pending row. -/
theorem claimC1_amended :
    (∀ (r0 : SampleRecord) (rs : List SampleRecord),
      (run (init r0) rs).paper_buffer.length
          = 2 + motorChangesN (sumPhase r0) rs / 2 ∧
      (run (init r0) rs).motor_steps
          = 2 * (motorChangesN (sumPhase r0) rs % 2)) ∧
    (∀ (s : PrintMechEmulator) (r : SampleRecord),
      sumPhase r ≠ s.last_motor_state → s.motor_steps = 0 →
      (s.update r).paper_buffer
          = (burnLatchRegister (clockStep (latchStep (dstStep s r) r) r)
              true).paper_buffer ∧
      (s.update r).motor_steps = 2) := by
  constructor
  · intro r0 rs
    have hc := run_cadence rs (init r0) (Or.inl rfl)
    have hlast : (init r0).last_motor_state = sumPhase r0 := rfl
    have hlen : (init r0).paper_buffer.length = 2 := rfl
    have hsteps : (init r0).motor_steps = 0 := rfl
    rw [hlast, hlen, hsteps] at hc
    obtain ⟨h1, h2⟩ := hc
    exact ⟨by rw [h1]; omega, by rw [h2]; omega⟩
  · intro s r hch h0
    have hm := motorStep_steps0 (clockStep (latchStep (dstStep s r) r) r) r
      (by
        simp only [clockStep_last_motor, latchStep_last_motor, dstStep_last_motor]
        exact hch)
      (by simp only [clockStep_motor, latchStep_motor, dstStep_motor]; exact h0)
    constructor
    · rw [update_stages, commitStep_paper, hm]
    · rw [update_stages, commitStep_motor, hm]

/-- C1, witness for the amended between-rows clause at a concrete input. -/
theorem claimC1_amended_witness :
    ((init ⟨0,0,0,0,0,0,0⟩).update ⟨0,0,0,0,0,1,0⟩).motor_steps = 2 :=
  (claimC1_amended.2 (init ⟨0,0,0,0,0,0,0⟩) ⟨0,0,0,0,0,1,0⟩
    (by decide) (by decide)).2

/-- C2: for a batch of raw 8-bit counter values sampled from true tick counts
`u :: rest` (nondecreasing, with fewer than 256 ticks between consecutive
samples and since the previous batch's last tick), starting from a decoder
state that encodes the previous tick, the decoder reconstructs the timestamps
`k / F` exactly, advances its state to encode the batch's last tick, strictly
increasing ticks give strictly increasing timestamps, and consecutive ticks
differ by `1 / F`. -/
theorem claimC2 (tprev u : Nat) (rest : List Nat) (st : DecoderState)
    (hg : st.global_counter = 256 * (tprev / 256))
    (hl : st.last_count = tprev % 256)
    (hch : List.Chain (fun a b => a ≤ b ∧ b - a < 256) tprev (u :: rest)) :
    decodeTimestamps st ((u :: rest).map (· % 256))
        = (u :: rest).map (fun k : Nat => (k : ℚ) / countFreq) ∧
    (getSamplesCounter st ((u :: rest).map (· % 256))).2.global_counter
        = 256 * (((u :: rest).getLastD 0) / 256) ∧
    (getSamplesCounter st ((u :: rest).map (· % 256))).2.last_count
        = ((u :: rest).getLastD 0) % 256 ∧
    (List.Chain (· < ·) u rest →
      List.Chain (· < ·) ((u : ℚ) / countFreq)
        (rest.map (fun k : Nat => (k : ℚ) / countFreq))) ∧
    (∀ k : Nat, ((k + 1 : Nat) : ℚ) / countFreq - (k : ℚ) / countFreq
        = 1 / countFreq) := by
  obtain ⟨h1, h2, h3⟩ := getSamplesCounter_correct tprev u rest st hg hl hch
  refine ⟨?_, ?_, ?_, fun hstrict => chain_div_mono rest u hstrict, ?_⟩
  · unfold decodeTimestamps
    rw [h1]
  · rw [List.getLastD_cons]
    exact h2
  · rw [List.getLastD_cons]
    exact h3
  · intro k
    have hF : (countFreq : ℚ) ≠ 0 := by norm_num [countFreq]
    push_cast
    field_simp

/-- C2, witness: a batch that wraps the 8-bit counter inside the batch
(ticks 255, 256, 257 sampled as 255, 0, 1) starting after tick 254. -/
theorem claimC2_witness :
    decodeTimestamps ⟨0, 254⟩ ([255, 256, 257].map (· % 256))
      = [255, 256, 257].map (fun k : Nat => (k : ℚ) / countFreq) :=
  (claimC2 254 255 [256, 257] ⟨0, 254⟩ (by decide) (by decide)
    (List.Chain.cons ⟨by omega, by omega⟩ (List.Chain.cons ⟨by omega, by omega⟩
      (List.Chain.cons ⟨by omega, by omega⟩ List.Chain.nil)))).1

/-- C3: the CSV round trip is not the identity on records.  `export_data`
writes the dst bit into column 3 (headed DST) and the latch bit into column 4
(headed Latch), but `read_mech_input` assigns column 3 to its latch field and
column 4 to its dst field, so a record with `dst = 1, latch = 0` reloads with
the two bits swapped and the reloaded emulator input differs from the
header-mandated one. -/
theorem claimC3 :
    readMechInputRow (exportRow ⟨0, 0, 0, 1, 0, 0, 0⟩)
        ≠ readRowPerHeader (exportRow ⟨0, 0, 0, 1, 0, 0, 0⟩) ∧
    (readMechInputRow (exportRow ⟨0, 0, 0, 1, 0, 0, 0⟩)).dst = 0 ∧
    (readMechInputRow (exportRow ⟨0, 0, 0, 1, 0, 0, 0⟩)).latch = 1 := by
  decide

/-- C4: the redundancy filter drops a batch whose only signal change is
between its last two samples.  With last emitted byte 5 and batch [5, 7], the
filter's scan `non_repeated[:-1]` ignores the final adjacent pair, so the
batch is dropped even though it contains a state change, contrary to the
claim and to the function's own docstring. -/
theorem claimC4 :
    droppedByFilter (some 5) [5, 7] = true ∧
    (List.zipWith (fun a b => decide (a ≠ b)) ([5, 7] : List Nat).dropLast
        ([5, 7] : List Nat).tail).any id = true := by
  decide

/-- C5: rasterisation is idempotent.  Calling get_printout twice with no
intervening update returns the same image, and the second call leaves the
stored paper buffer unchanged: the drain zeroes the accumulator, so draining
again adds an all-zero burn buffer. -/
theorem claimC5 (r0 : SampleRecord) (rs : List SampleRecord) :
    ((run (init r0) rs).get_printout.2.get_printout.1
        = (run (init r0) rs).get_printout.1) ∧
    ((run (init r0) rs).get_printout.2.get_printout.2.paper_buffer
        = (run (init r0) rs).get_printout.2.paper_buffer) := by
  have hWF : WF (run (init r0) rs) := WF_run _ rs (WF_init r0)
  have hWF1 : WF ((run (init r0) rs).burnLatchRegister false) :=
    WF_burnLatch _ false hWF
  have hkey : ((run (init r0) rs).burnLatchRegister false).burnLatchRegister false
      = (run (init r0) rs).burnLatchRegister false :=
    burnLatch_zero_burn _ hWF1 (by simp)
  constructor
  · show (((run (init r0) rs).burnLatchRegister false).burnLatchRegister
          false).paper_buffer.map (fun row => row.map pixelOf)
        = ((run (init r0) rs).burnLatchRegister false).paper_buffer.map
          (fun row => row.map pixelOf)
    rw [hkey]
  · show (((run (init r0) rs).burnLatchRegister false).burnLatchRegister
          false).paper_buffer
        = ((run (init r0) rs).burnLatchRegister false).paper_buffer
    rw [hkey]

/-- C6: the rasterised printout has height equal to the number of paper rows
and width exactly 384, its pixel at any cell equals
`max(0, 255 - ceil(T * 25000))` for the stored burn time `T` of that cell,
burn time 0 maps to white 255, burn time 0.0040 s maps to 155, and pixels of
nonnegative burn times lie in the uint8 range 0..255. -/
theorem claimC6 :
    (∀ (r0 : SampleRecord) (rs : List SampleRecord),
      (run (init r0) rs).get_printout.1.length
          = (run (init r0) rs).paper_buffer.length ∧
      (∀ row ∈ (run (init r0) rs).get_printout.1, row.length = 384) ∧
      (∀ i j : Nat,
        ((run (init r0) rs).get_printout.1.getD i []).getD j 255
          = pixelOf
            (((run (init r0) rs).get_printout.2.paper_buffer.getD i []).getD
              j 0))) ∧
    pixelOf 0 = 255 ∧
    pixelOf (1 / 250) = 155 ∧
    (∀ t : ℚ, 0 ≤ t → 0 ≤ pixelOf t ∧ pixelOf t ≤ 255) := by
  refine ⟨?_, pixelOf_zero, by norm_num [pixelOf],
    fun t ht => ⟨pixelOf_nonneg t, pixelOf_le t ht⟩⟩
  intro r0 rs
  have hWF1 : WF ((run (init r0) rs).burnLatchRegister false) :=
    WF_burnLatch _ false (WF_run _ rs (WF_init r0))
  refine ⟨?_, ?_, ?_⟩
  · show (((run (init r0) rs).burnLatchRegister false).paper_buffer.map
        (fun row => row.map pixelOf)).length = _
    rw [List.length_map, burnLatch_paper_length]
  · intro row hrow
    have hmem : row ∈ ((run (init r0) rs).burnLatchRegister
        false).paper_buffer.map (fun row => row.map pixelOf) := hrow
    obtain ⟨q, hq, hqrow⟩ := List.mem_map.1 hmem
    obtain ⟨h1, h2, h3, h4⟩ := hWF1
    rw [← hqrow, List.length_map, h4 q hq]
    rfl
  · intro i j
    show ((((run (init r0) rs).burnLatchRegister false).paper_buffer.map
          (fun row => row.map pixelOf)).getD i []).getD j 255
        = pixelOf ((((run (init r0) rs).burnLatchRegister
            false).paper_buffer.getD i []).getD j 0)
    rw [map_pixel_paper_getD, map_pixel_row_getD]

/-- C6, witness for the range clause at the concrete burn time 1. -/
theorem claimC6_witness :
    0 ≤ pixelOf 1 ∧ pixelOf 1 ≤ 255 :=
  claimC6.2.2.2 1 (by norm_num)

/-- C7: one update applies the five checks in the source's order.  The update
is literally the composition of the spec's five steps; the newly latched
contents on a latch fall are the pre-clock shift register, so a bit clocked
in by the same record never appears in them; the commit stores the current
values as previous ones; and on a latch fall the burn accumulator is drained
to zero and the old shift register is copied before the clock shift runs. -/
theorem claimC7 :
    (∀ (s : PrintMechEmulator) (i : SampleRecord),
      s.update i
        = commitStep (motorStep (clockStep (latchStep (dstStep s i) i) i) i) i) ∧
    (∀ (s : PrintMechEmulator) (i : SampleRecord),
      (s.update i).latch_register
        = if s.last_latch ≠ 0 ∧ i.latch = 0 then s.shift_register
          else s.latch_register) ∧
    (∀ (s : PrintMechEmulator) (i : SampleRecord),
      (s.update i).last_timestamp = i.timestamp ∧
      (s.update i).last_clock = i.clock ∧
      (s.update i).last_dst = i.dst ∧
      (s.update i).last_latch = i.latch ∧
      (s.update i).last_motor_state = i.motor1 + i.motor2) ∧
    (∀ (s : PrintMechEmulator) (i : SampleRecord),
      s.last_latch ≠ 0 → i.latch = 0 →
      (latchStep (dstStep s i) i).burn_time = 0 ∧
      (latchStep (dstStep s i) i).latch_register = s.shift_register) := by
  refine ⟨fun s i => rfl, ?_, fun s i => ⟨rfl, rfl, rfl, rfl, rfl⟩, ?_⟩
  · intro s i
    show (commitStep (motorStep (clockStep (latchStep (dstStep s i) i) i) i)
        i).latch_register = _
    simp only [commitStep_latch, motorStep_latch, clockStep_latch]
    rw [latchStep_latch]
    simp only [dstStep_last_latch, dstStep_shift, dstStep_latch]
  · intro s i h1 h2
    constructor
    · rw [latchStep_burn, if_pos ⟨by rw [dstStep_last_latch]; exact h1, h2⟩]
    · rw [latchStep_latch, if_pos ⟨by rw [dstStep_last_latch]; exact h1, h2⟩,
        dstStep_shift]

/-- C7, witness for the latch-fall clause at a concrete input. -/
theorem claimC7_witness :
    (latchStep (dstStep (init ⟨0,0,0,0,1,0,0⟩) ⟨0,0,0,0,0,0,0⟩)
        ⟨0,0,0,0,0,0,0⟩).burn_time = 0 ∧
    (latchStep (dstStep (init ⟨0,0,0,0,1,0,0⟩) ⟨0,0,0,0,0,0,0⟩)
        ⟨0,0,0,0,0,0,0⟩).latch_register
      = (init ⟨0,0,0,0,1,0,0⟩).shift_register :=
  claimC7.2.2.2 (init ⟨0,0,0,0,1,0,0⟩) ⟨0,0,0,0,0,0,0⟩ (by decide) rfl

set_option maxRecDepth 40000 in
/-- C8, counterexample: a second await_capture_completion re-applies the
previously processed records.  With stored batches [r0, r1] after the first
await and [r0, r1, r2] returned by get_data after the second, feeding the
two awaits differs from feeding each record once: the clock edge of r1 is
replayed and shifts a second data bit into the register. -/
theorem claimC8_counterexample :
    awaitFeed (awaitFeed none [⟨0,0,0,0,0,0,0⟩, ⟨0,1,1,0,0,0,0⟩])
        [⟨0,0,0,0,0,0,0⟩, ⟨0,1,1,0,0,0,0⟩, ⟨0,1,1,0,0,0,0⟩]
      ≠ awaitFeed none
        [⟨0,0,0,0,0,0,0⟩, ⟨0,1,1,0,0,0,0⟩, ⟨0,1,1,0,0,0,0⟩] := by
  decide

/-- C8, amended: at the emulator level, feeding a capture split into two
sub-captures that share their boundary record gives exactly the run of the
whole capture, because updating with the just-committed boundary record is a
no-op; the same final state yields the same printout.  Re-running previously
processed records, as a repeated await_capture_completion does, is not
covered: records are applied exactly once only on a single await per
session (or after clear). -/
theorem claimC8_amended (e : PrintMechEmulator) (r : SampleRecord)
    (A C : List SampleRecord) :
    run e ((A ++ [r]) ++ r :: C) = run e ((A ++ [r]) ++ C) ∧
    (run e ((A ++ [r]) ++ r :: C)).get_printout.1
      = (run e ((A ++ [r]) ++ C)).get_printout.1 := by
  have hnoop : (run e (A ++ [r])).update r = run e (A ++ [r]) := by
    have hr : run e (A ++ [r]) = (run e A).update r := run_append e A [r]
    rw [hr]
    exact update_committed _ _ (by simp) (by simp) (by simp) (by simp) (by simp)
  have hstate : run e ((A ++ [r]) ++ r :: C) = run e ((A ++ [r]) ++ C) := by
    have ha := run_append e (A ++ [r]) (r :: C)
    have hb := run_append e (A ++ [r]) C
    rw [ha, hb, run_cons, hnoop]
  exact ⟨hstate, by rw [hstate]⟩

/-- C9: after every update from the initial state, motor_steps is 0 or 2, the
paper buffer keeps at least 2 rows, one further update never shrinks the
buffer (it appends at most one row at the bottom), and a drain writes only
the active row, the second-from-last: every other row is untouched. -/
theorem claimC9 (r0 : SampleRecord) (rs : List SampleRecord) (r : SampleRecord) :
    ((run (init r0) rs).motor_steps = 0 ∨ (run (init r0) rs).motor_steps = 2) ∧
    2 ≤ (run (init r0) rs).paper_buffer.length ∧
    (run (init r0) rs).paper_buffer.length
        ≤ ((run (init r0) rs).update r).paper_buffer.length ∧
    (((run (init r0) rs).update r).paper_buffer.length
        = (run (init r0) rs).paper_buffer.length ∨
      ((run (init r0) rs).update r).paper_buffer.length
        = (run (init r0) rs).paper_buffer.length + 1) ∧
    (∀ i : Nat, i ≠ (run (init r0) rs).paper_buffer.length - 2 →
      ((run (init r0) rs).burnLatchRegister false).paper_buffer.getD i []
        = (run (init r0) rs).paper_buffer.getD i []) := by
  have hc := run_cadence rs (init r0) (Or.inl rfl)
  have hlen0 : (init r0).paper_buffer.length = 2 := rfl
  have hsteps0 : (init r0).motor_steps = 0 := rfl
  rw [hlen0, hsteps0] at hc
  obtain ⟨h1, h2⟩ := hc
  refine ⟨by rw [h2]; omega, by rw [h1]; omega, ?_, update_paper_length _ r, ?_⟩
  · rcases update_paper_length (run (init r0) rs) r with h | h <;> omega
  · intro i hi
    show (addToRow (run (init r0) rs).paper_buffer
        ((run (init r0) rs).paper_buffer.length - 2)
        ((run (init r0) rs).latch_register.map
          (fun b : Nat => (b : ℚ) * (run (init r0) rs).burn_time))).getD i []
      = (run (init r0) rs).paper_buffer.getD i []
    rw [addToRow]
    exact list_getD_set_ne _ _ _ _ _ (Ne.symm hi)

lemma getD_replicate_self {α : Type} (n j : Nat) (a : α) :
    (List.replicate n a).getD j a = a := by
  rcases lt_or_ge j n with h | h
  · rw [List.getD_eq_getElem _ _ (by simpa using h)]
    simp
  · rw [List.getD_eq_default _ _ (by simpa using h)]

/-- C10, counterexample: burn conservation fails when the latch bit of the
column is 0 at a drain.  Starting with dst and latch high and an all-zero
latch register, one record that drops both: the accumulated 1 ms of dst-high
time is drained against a zero latch bit, so nothing reaches the paper and
the accumulator resets, while the dst integral is 1/1000 s. -/
theorem claimC10_counterexample :
    columnTotal 0 (run (init ⟨0,0,0,1,1,0,0⟩) [⟨1/1000,0,0,0,0,0,0⟩])
      + (run (init ⟨0,0,0,1,1,0,0⟩) [⟨1/1000,0,0,0,0,0,0⟩]).burn_time
    ≠ dstIntegral ⟨0,0,0,1,1,0,0⟩ [⟨1/1000,0,0,0,0,0,0⟩] := by
  have hlb : latchBit 0 (init (⟨0,0,0,1,1,0,0⟩ : SampleRecord)) = 0 := by
    show (((List.replicate DOTS_PER_LINE 0).getD 0 0 : Nat) : ℚ) = 0
    rw [getD_replicate_self]
    norm_num
  have hzero : colSum 0 (init (⟨0,0,0,1,1,0,0⟩ : SampleRecord)).paper_buffer
      = 0 := by
    show colSum 0 [List.replicate DOTS_PER_LINE 0, List.replicate DOTS_PER_LINE 0] = 0
    simp [colSum, getD_replicate_zero]
  have hq := update_colQuantity (init (⟨0,0,0,1,1,0,0⟩ : SampleRecord))
    ⟨1/1000,0,0,0,0,0,0⟩ 0 (WF_init _)
  rw [hzero, hlb] at hq
  have hq2 : colSum 0 ((init (⟨0,0,0,1,1,0,0⟩ : SampleRecord)).update
        ⟨1/1000,0,0,0,0,0,0⟩).paper_buffer
      + latchBit 0 ((init (⟨0,0,0,1,1,0,0⟩ : SampleRecord)).update
        ⟨1/1000,0,0,0,0,0,0⟩)
        * ((init (⟨0,0,0,1,1,0,0⟩ : SampleRecord)).update
          ⟨1/1000,0,0,0,0,0,0⟩).burn_time = 0 := by
    rw [hq]
    have hinitburn : (init (⟨0,0,0,1,1,0,0⟩ : SampleRecord)).burn_time = 0 := rfl
    rw [hinitburn]
    split
    case isTrue =>
      split
      case isTrue =>
        rename_i ha hb
        refine absurd ?_ hb.1
        simp [init]
      case isFalse => ring
    case isFalse =>
      split
      case isTrue =>
        rename_i ha hb
        refine absurd ?_ hb.1
        simp [init]
      case isFalse => ring
  have hburnS : ((init (⟨0,0,0,1,1,0,0⟩ : SampleRecord)).update
      ⟨1/1000,0,0,0,0,0,0⟩).burn_time = 0 := by
    rw [update_stages, commitStep_burn]
    rw [motorStep_no_change _ _ (by
      simp only [clockStep_last_motor, latchStep_last_motor, dstStep_last_motor]
      rfl)]
    rw [clockStep_burn, latchStep_burn,
      if_pos ⟨by rw [dstStep_last_latch]; decide, rfl⟩]
  have hcolS : colSum 0 ((init (⟨0,0,0,1,1,0,0⟩ : SampleRecord)).update
      ⟨1/1000,0,0,0,0,0,0⟩).paper_buffer = 0 := by
    rw [hburnS, mul_zero, add_zero] at hq2
    exact hq2
  have hint : dstIntegral ⟨0,0,0,1,1,0,0⟩ [⟨1/1000,0,0,0,0,0,0⟩]
      = 1 / 1000 := by
    simp only [dstIntegral]
    norm_num
  have hrun : run (init (⟨0,0,0,1,1,0,0⟩ : SampleRecord)) [⟨1/1000,0,0,0,0,0,0⟩]
      = (init (⟨0,0,0,1,1,0,0⟩ : SampleRecord)).update ⟨1/1000,0,0,0,0,0,0⟩ := rfl
  rw [hrun, hint]
  unfold columnTotal
  rw [hcolS, hburnS]
  norm_num

/-- C10, amended: per dot column, the burn time stored in the paper plus the
latch-weighted residual accumulator equals the latch-weighted dst integral
with between-rows drains counted twice: each accumulation interval is
weighted by the latch bit of the column in force during it (the latch can
change only at a drain boundary), and the portion drained by a between-rows
burn is deposited into the pending row as well.  The unweighted identity of
the claim holds only for columns whose latch bit is 1 at every drain and in
the absence of between-rows drains. -/
theorem claimC10_amended (r0 : SampleRecord) (rs : List SampleRecord) (j : Nat) :
    columnTotal j (run (init r0) rs)
      + latchBit j (run (init r0) rs) * (run (init r0) rs).burn_time
    = colGhost j (init r0) rs := by
  have h := run_colQuantity rs (init r0) (WF_init r0) j
  unfold columnTotal
  rw [h]
  have hzero : colSum j (init r0).paper_buffer = 0 := by
    show colSum j [List.replicate DOTS_PER_LINE 0, List.replicate DOTS_PER_LINE 0] = 0
    simp [colSum, getD_replicate_zero]
  have hburn : (init r0).burn_time = 0 := rfl
  rw [hzero, hburn, mul_zero, zero_add, zero_add]

/-- C9, witness for the untouched-rows clause at a concrete input. -/
theorem claimC9_witness :
    ((run (init ⟨0,0,0,0,0,0,0⟩) []).burnLatchRegister
        false).paper_buffer.getD 5 []
      = (run (init ⟨0,0,0,0,0,0,0⟩) []).paper_buffer.getD 5 [] :=
  (claimC9 ⟨0,0,0,0,0,0,0⟩ [] ⟨0,0,0,0,0,0,0⟩).2.2.2.2 5 (by decide)

end MartelMech
